import Mathlib

/-!
Shallow embedding of the tcb-bot release-notification pipeline.

Go strings are modelled as lists of characters (`GoStr`).  The embedding
covers, from the repository sources:

- `internal/utils/validation.go` — the release-title and release-link
  regular expressions, modelled as executable Boolean matchers with the
  RE2 default semantics (the dot matches any character except the newline,
  the anchors match the begin and the end of the whole text, `\\d` is the
  ASCII digit class);
- `strings.Split(s, "Chapter")` and `strings.Trim(s, " ")` from the Go
  standard library, as used by `internal/html/html.go`;
- `processHTMLElement` from `internal/html/html.go` — the per-candidate
  pipeline step, with its exact check order and its event trace;
- `LoadCollectedChapters` and `SaveCollectedChapters` from
  `internal/database/database.go`;
- the error/resolution state machine of the scheduler task in `main.go`
  (the `lastError` / `currentError` logic of the `start` command).
-/

namespace TcbBot

/-- Go strings viewed as rune lists. -/
abbrev GoStr := List Char

/-- Rune list of a Lean string literal. -/
def chars (s : String) : GoStr := s.data

/-- RE2 class `\d`, the ASCII digits. -/
def isDig (c : Char) : Bool := decide ('0' ≤ c) && decide (c ≤ '9')

/-- If `s` starts with the literal `pre`, return the remainder. -/
def dropPre : GoStr → GoStr → Option GoStr
  | [], s => some s
  | _ :: _, [] => none
  | p :: ps, c :: cs => if c = p then dropPre ps cs else none

/-- Literal separator `" Chapter "` of the release-title regular expression. -/
def sepTitle : GoStr := chars " Chapter "

/-- Literal `"Chapter"`, the separator passed to `strings.Split` in
`processHTMLElement`. -/
def chapterLit : GoStr := chars "Chapter"

/-- Matcher for `\d+(\.\d+)?$`: one or more digits, optionally followed by a
dot and one or more digits, ending the text. -/
def isNum (s : GoStr) : Bool :=
  let ds := s.takeWhile isDig
  let r := s.dropWhile isDig
  decide (ds ≠ []) &&
    (match r with
     | [] => true
     | '.' :: t => decide (t ≠ []) && t.all isDig
     | _ => false)

/-- Model of `utils.IsValidReleaseTitle`, the matcher of the Go regular
expression `^(.+?) Chapter (\d+(\.\d+)?)$` (file `internal/utils/validation.go`).
A match decomposes the text as a non-empty newline-free subject, the literal
`" Chapter "`, and a number shaped `\d+(\.\d+)?`; the function searches all
split points for such a decomposition. -/
def isValidReleaseTitle : GoStr → Bool
  | [] => false
  | c :: rest =>
    decide (c ≠ '\n') &&
      ((match dropPre sepTitle rest with
        | some num => isNum num
        | none => false)
       || isValidReleaseTitle rest)

/-- Literal `"/chapters/"` opening the release-link regular expression. -/
def linkHead : GoStr := chars "/chapters/"

/-- Literal `"-chapter-"` of the release-link regular expression. -/
def linkMark : GoStr := chars "-chapter-"

/-- Character class `[a-z0-9-]` of the release-link regular expression. -/
def isSlugChar (c : Char) : Bool :=
  (decide ('a' ≤ c) && decide (c ≤ 'z')) || isDig c || decide (c = '-')

/-- Matcher for `-chapter-\d+.*$` at the current position: the literal mark,
one or more digits, then any newline-free tail. -/
def linkTailMark (r : GoStr) : Bool :=
  match dropPre linkMark r with
  | some u =>
    (match u with
     | d :: us => isDig d && us.all (fun c => decide (c ≠ '\n'))
     | [] => false)
  | none => false

/-- Matcher for `[a-z0-9-]+-chapter-\d+.*$`: a non-empty slug followed by
`linkTailMark`, searching all split points. -/
def slugTail : GoStr → Bool
  | [] => false
  | c :: rest => isSlugChar c && (linkTailMark rest || slugTail rest)

/-- Model of `utils.IsValidReleaseLink`, the matcher of the Go regular
expression `^/chapters/\d+/[a-z0-9-]+-chapter-\d+.*$`
(file `internal/utils/validation.go`). -/
def isValidReleaseLink (s : GoStr) : Bool :=
  match dropPre linkHead s with
  | some r =>
    let d1 := r.takeWhile isDig
    let r2 := r.dropWhile isDig
    decide (d1 ≠ []) &&
      (match r2 with
       | '/' :: r3 => slugTail r3
       | _ => false)
  | none => false

/-- Model of Go `strings.Trim(s, " ")`: remove leading and trailing spaces. -/
def trimSpace (s : GoStr) : GoStr :=
  ((s.dropWhile (fun c => decide (c = ' '))).reverse.dropWhile
    (fun c => decide (c = ' '))).reverse

/-- Fuel-driven worker for `splitChapter`; the fuel bounds the input length,
so the recursion is structural and the function reduces in the kernel. -/
def splitChapterGo : Nat → GoStr → List GoStr
  | 0, s => [s]
  | fuel + 1, s =>
    match s with
    | [] => [[]]
    | c :: cs =>
      match dropPre chapterLit (c :: cs) with
      | some b => [] :: splitChapterGo fuel b
      | none =>
        match splitChapterGo fuel cs with
        | [] => [[c]]
        | seg :: segs => (c :: seg) :: segs

/-- Model of Go `strings.Split(s, "Chapter")`: the segments of `s` around the
leftmost-first non-overlapping occurrences of `"Chapter"`
(`processHTMLElement` indexes the first two segments). -/
def splitChapter (s : GoStr) : List GoStr := splitChapterGo s.length s


/-- Field set of `domain.ChapterInfo` (file `internal/domain/domain.go`). -/
structure ChapterInfo where
  releaseLink : GoStr
  mangaTitle : GoStr
  chapterNumber : GoStr
  chapterTitle : GoStr
  releaseTime : GoStr
deriving DecidableEq, Repr

/-- Raw fields scraped for one `div.bg-card` candidate block, as read by
`processHTMLElement` through `ChildText` and `ChildAttr`. -/
structure Candidate where
  releaseTitle : GoStr
  releaseLink : GoStr
  chapterTitle : GoStr
  releaseTime : GoStr
deriving DecidableEq, Repr

/-- Observable actions of one candidate dispatch, in program order.
`storeEv` is the `domain.CollectedChaptersMap.Store` call; `notifyEv` is the
`bot.SendDiscordNotification` call, annotated with the identity key of the
candidate that caused it (the key logged at the `Sent notification for` line). -/
inductive Event where
  | storeEv (key : GoStr) (info : ChapterInfo)
  | notifyEv (key : GoStr) (title desc url footer : GoStr) (color : Nat)
deriving DecidableEq, Repr

/-- How one candidate dispatch ends. `ok` returns to the caller; `fatalTime`
is the `log.Fatal` call on a release-time parse failure, which exits the whole
process; `splitOob` is the runtime index-out-of-range abort on the unguarded
access to the second segment of the title split. -/
inductive Outcome where
  | ok
  | fatalTime
  | splitOob
deriving DecidableEq, Repr

/-- The in-memory dedup store `domain.CollectedChaptersMap`, modelled as an
association list; lookup returns the first binding of a key. -/
abbrev Store := List (GoStr × ChapterInfo)

/-- First-match lookup in an association list. -/
def lookupAL (st : Store) (k : GoStr) : Option ChapterInfo :=
  match st with
  | [] => none
  | (k2, v) :: rest => if k2 = k then some v else lookupAL rest k

/-- Insert-or-replace by key; models both `sync.Map.Store` and the SQL
`INSERT ... ON CONFLICT(releaseTitle) DO UPDATE` upsert of
`SaveCollectedChapters`. -/
def upsertAL (st : Store) (k : GoStr) (v : ChapterInfo) : Store :=
  match st with
  | [] => [(k, v)]
  | (k2, v2) :: rest =>
    if k2 = k then (k, v) :: rest else (k2, v2) :: upsertAL rest k v

/-- External collaborators and configuration of the collector: the watched
manga list from the configuration, the `html.UnescapeString` function of the
Go standard library, and `utils.ParseAndConvertTime` applied at the fixed
arguments `(time.RFC3339, "Europe/Berlin", time.RFC1123)` — `none` models the
non-nil error return of the underlying `time.Parse`. -/
structure Ctx where
  watchedMangas : List GoStr
  unescape : GoStr → GoStr
  parseTime : GoStr → Option GoStr

/-- Base URL constant `WebsiteURL` of `internal/html/html.go`. -/
def websiteURL : GoStr := chars "https://tcbscans.me"

/-- Model of `(*Collector).processHTMLElement` (file `internal/html/html.go`):
empty-field guards, title and link validation, entity unescaping, the title
split, the watch-list check, the dedup lookup, the release-time conversion,
the store insert and the notification send, in source order.  Returns the new
store, the emitted events in order, and the outcome. -/
def processHTMLElement (ctx : Ctx) (st : Store) (e : Candidate) :
    Store × List Event × Outcome :=
  if e.releaseTitle = [] then (st, [], .ok)
  else if e.releaseLink = [] then (st, [], .ok)
  else if e.releaseTime = [] then (st, [], .ok)
  else if !isValidReleaseTitle e.releaseTitle then (st, [], .ok)
  else if !isValidReleaseLink e.releaseLink then (st, [], .ok)
  else
    let releaseTitle := ctx.unescape e.releaseTitle
    let chapterTitle := ctx.unescape e.chapterTitle
    match splitChapter releaseTitle with
    | s0 :: s1 :: _ =>
      let mangaTitle := trimSpace s0
      let chapterNumber := trimSpace s1
      let cleanRlsTitle := mangaTitle ++ sepTitle ++ chapterNumber
      if mangaTitle ∉ ctx.watchedMangas then (st, [], .ok)
      else if (lookupAL st cleanRlsTitle).isSome then (st, [], .ok)
      else
        match ctx.parseTime e.releaseTime with
        | none => (st, [], .fatalTime)
        | some formattedTime =>
          let newChapter : ChapterInfo :=
            { releaseLink := e.releaseLink
              mangaTitle := mangaTitle
              chapterNumber := chapterNumber
              chapterTitle := chapterTitle
              releaseTime := formattedTime }
          let desc :=
            if chapterTitle = [] then
              chars "Chapter " ++ chapterNumber ++ chars "\n"
            else
              chars "Chapter " ++ chapterNumber ++ chars ": " ++
                chapterTitle ++ chars "\n"
          (upsertAL st cleanRlsTitle newChapter,
           [.storeEv cleanRlsTitle newChapter,
            .notifyEv cleanRlsTitle mangaTitle desc
              (websiteURL ++ e.releaseLink)
              (chars "Released at " ++ formattedTime) 3447003],
           .ok)
    | _ => (st, [], .splitOob)

/-- One poll cycle over the candidate blocks found in the document, in
document order; a non-`ok` outcome exits the process, so no later candidate
is dispatched.  Runs over several cycles compose by list concatenation. -/
def runCandidates (ctx : Ctx) (st : Store) : List Candidate →
    Store × List Event × Outcome
  | [] => (st, [], .ok)
  | c :: cs =>
    let r1 := processHTMLElement ctx st c
    match r1.2.2 with
    | .ok =>
      let r2 := runCandidates ctx r1.1 cs
      (r2.1, r1.2.1 ++ r2.2.1, r2.2.2)
    | o => (r1.1, r1.2.1, o)

/-- Durable table `collected_chapters`, keyed by `releaseTitle`, modelled as
the list of its rows. -/
abbrev Table := List (GoStr × ChapterInfo)

/-- Model of `(*DB).LoadCollectedChapters` (file
`internal/database/database.go`): scan every row and `Store` it into the
in-memory map. -/
def loadCollectedChapters (rows : Table) (st : Store) : Store :=
  rows.foldl (fun acc kv => upsertAL acc kv.1 kv.2) st

/-- Model of `(*DB).SaveCollectedChapters` (file
`internal/database/database.go`): range over the in-memory entries and upsert
each into the table; `execOk` tells whether the SQL `Exec` of an entry
returns a nil error, and a non-nil error hits `log.Fatal`, which exits the
process — modelled by the `none` result. -/
def saveCollectedChapters (execOk : GoStr → ChapterInfo → Bool) :
    Store → Table → Option Table
  | [], t => some t
  | (k, v) :: rest, t =>
    if execOk k v then saveCollectedChapters execOk rest (upsertAL t k v)
    else none

/-- Count of notification sends attributed to identity key `k` in a trace. -/
def countKeyNotify (k : GoStr) (evs : List Event) : Nat :=
  (evs.filter fun ev =>
    match ev with
    | .notifyEv k2 _ _ _ _ _ => decide (k2 = k)
    | _ => false).length

/-- Outcome of one scheduled collection cycle as seen by the task closure in
`main.go`: `c.Run()` returned a non-nil error with a message, or nil. -/
inductive CycleResult where
  | fail (msg : GoStr)
  | success
deriving DecidableEq, Repr

/-- Notifications of the pipeline error machine: the red
`Error collecting chapters` embed and the orange `Error resolved` embed. -/
inductive ErrEvent where
  | errorNotif (msg : GoStr)
  | resolvedNotif
deriving DecidableEq, Repr

/-- Message prefix of `fmt.Sprintf("Unexpected error occurred: %v", err)`. -/
def errorTag : GoStr := chars "Unexpected error occurred: "

/-- Model of the task closure body in `main.go` (`start` command): on a
failed cycle build `currentError`, notify and remember it when it differs
from `lastError`; on a successful cycle notify resolution and clear
`lastError` when it was non-empty.  Returns the new `lastError` and the
notifications of this cycle. -/
def errorStep (lastError : GoStr) : CycleResult → GoStr × List ErrEvent
  | .fail msg =>
    let currentError := errorTag ++ msg
    if currentError ≠ lastError then (currentError, [.errorNotif currentError])
    else (lastError, [])
  | .success =>
    if lastError ≠ [] then ([], [.resolvedNotif])
    else (lastError, [])

/-- The error machine over a whole run: the notifications of each cycle, in
cycle order. -/
def runErrorMachine (lastError : GoStr) : List CycleResult → List (List ErrEvent)
  | [] => []
  | r :: rs =>
    let s := errorStep lastError r
    s.2 :: runErrorMachine s.1 rs

/-- Value of `lastError` after a sequence of cycles. -/
def lastAfter (lastError : GoStr) (rs : List CycleResult) : GoStr :=
  rs.foldl (fun l r => (errorStep l r).1) lastError

/-- Count of error notifications in the events of one cycle. -/
def errCount (evs : List ErrEvent) : Nat :=
  (evs.filter fun ev =>
    match ev with
    | .errorNotif _ => true
    | _ => false).length

/-- Count of resolution notifications in the events of one cycle. -/
def resCount (evs : List ErrEvent) : Nat :=
  (evs.filter fun ev =>
    match ev with
    | .resolvedNotif => true
    | _ => false).length

/-- Modelled from the spec, for the refinement claim about the title
validator: a number is an integer or a decimal — digits, optionally a dot
and more digits. -/
def numShape (num : GoStr) : Prop :=
  (num ≠ [] ∧ num.all isDig = true) ∨
    ∃ a b, a ≠ [] ∧ b ≠ [] ∧ a.all isDig = true ∧ b.all isDig = true ∧
      num = a ++ '.' :: b

/-- Modelled from the spec, for the refinement claim about the title
validator: the shape `<subject> Chapter <number>` with a non-empty subject, a
single space before and after the literal `Chapter`, and a number at the end
of the string. -/
def specTitleShape (s : GoStr) : Prop :=
  ∃ subj num, subj ≠ [] ∧ numShape num ∧ s = subj ++ sepTitle ++ num

/-- Fixture: a context watching exactly `One Piece`, with entity-free inputs
(unescaping is the identity on them) and a time collaborator that succeeds on
the wire timestamp of the end-to-end example. -/
def ctxOP : Ctx where
  watchedMangas := [chars "One Piece"]
  unescape := id
  parseTime := fun t =>
    if t = chars "2024-05-01T12:00:00Z"
    then some (chars "Wed, 01 May 2024 14:00:00 CEST")
    else none

/-- Fixture: a context like `ctxOP` whose time collaborator always fails,
modelling a source timestamp-format break. -/
def ctxOPBadTime : Ctx where
  watchedMangas := [chars "One Piece"]
  unescape := id
  parseTime := fun _ => none

/-- Fixture: the end-to-end example candidate block. -/
def candOP : Candidate where
  releaseTitle := chars "One Piece Chapter 1100"
  releaseLink := chars "/chapters/123/one-piece-chapter-1100"
  chapterTitle := chars "Final Arc"
  releaseTime := chars "2024-05-01T12:00:00Z"

/-- Fixture: a candidate whose subject is a proper superstring of the watched
subject. -/
def candDokoda : Candidate where
  releaseTitle := chars "One Piece Dokoda?! Chapter 5"
  releaseLink := chars "/chapters/7/one-piece-dokoda-chapter-5"
  chapterTitle := chars "Special"
  releaseTime := chars "2024-05-01T12:00:00Z"

/-- Fixture: a candidate whose composite title has no `Chapter` marker. -/
def candMalformed : Candidate where
  releaseTitle := chars "just a string"
  releaseLink := chars "/chapters/123/one-piece-chapter-1100"
  chapterTitle := chars ""
  releaseTime := chars "2024-05-01T12:00:00Z"

/-- Default record, used only for instance search. -/
instance : Inhabited ChapterInfo := ⟨⟨[], [], [], [], []⟩⟩

/-- Fixture: the identity key the pipeline builds from `candOP`. -/
def keyOP : GoStr := chars "One Piece Chapter 1100"

/-- Fixture: the chapter record the pipeline builds from `candOP`. -/
def infoOP : ChapterInfo where
  releaseLink := chars "/chapters/123/one-piece-chapter-1100"
  mangaTitle := chars "One Piece"
  chapterNumber := chars "1100"
  chapterTitle := chars "Final Arc"
  releaseTime := chars "Wed, 01 May 2024 14:00:00 CEST"

-- Basic facts about the literal stripper and the title splitter.

theorem dropPre_some {pre s b : GoStr} (h : dropPre pre s = some b) :
    s = pre ++ b := by
  induction pre generalizing s with
  | nil => cases s <;> simp [dropPre] at h <;> simp [h]
  | cons p ps ih =>
    cases s with
    | nil => simp [dropPre] at h
    | cons c cs =>
      simp only [dropPre] at h
      split at h
      · next hc => simpa [hc] using ih h
      · exact absurd h (by simp)

theorem dropPre_append (pre b : GoStr) : dropPre pre (pre ++ b) = some b := by
  induction pre with
  | nil => rfl
  | cons p ps ih => simp [dropPre, ih]

theorem dropPre_length {pre s b : GoStr} (h : dropPre pre s = some b) :
    s.length = pre.length + b.length := by
  have := congrArg List.length (dropPre_some h)
  simpa using this

theorem splitChapterGo_fuel {fuel fuel' : Nat} {s : GoStr}
    (h : s.length ≤ fuel) (h' : s.length ≤ fuel') :
    splitChapterGo fuel s = splitChapterGo fuel' s := by
  induction fuel generalizing fuel' s with
  | zero =>
    have hs : s = [] := List.length_eq_zero.mp (Nat.le_zero.mp h)
    subst hs
    cases fuel' <;> rfl
  | succ f ih =>
    cases s with
    | nil => cases fuel' <;> rfl
    | cons c cs =>
      cases fuel' with
      | zero => simp at h'
      | succ f' =>
        rcases hd : dropPre chapterLit (c :: cs) with _ | b
        · show (match dropPre chapterLit (c :: cs) with
                | some b => [] :: splitChapterGo f b
                | none =>
                  match splitChapterGo f cs with
                  | [] => [[c]]
                  | seg :: segs => (c :: seg) :: segs) = _
          rw [hd]
          have hcs : cs.length ≤ f := by simpa using h
          have hcs' : cs.length ≤ f' := by simpa using h'
          show (match splitChapterGo f cs with
                | [] => [[c]]
                | seg :: segs => (c :: seg) :: segs) = _
          rw [ih hcs hcs']
          show _ = (match dropPre chapterLit (c :: cs) with
                    | some b => [] :: splitChapterGo f' b
                    | none =>
                      match splitChapterGo f' cs with
                      | [] => [[c]]
                      | seg :: segs => (c :: seg) :: segs)
          rw [hd]
        · have hlen := dropPre_length hd
          simp only [chapterLit, chars, List.length_cons] at hlen h h'
          have hbf : b.length ≤ f := by simp at hlen; omega
          have hbf' : b.length ≤ f' := by simp at hlen; omega
          show (match dropPre chapterLit (c :: cs) with
                | some b => [] :: splitChapterGo f b
                | none =>
                  match splitChapterGo f cs with
                  | [] => [[c]]
                  | seg :: segs => (c :: seg) :: segs) = _
          rw [hd]
          show [] :: splitChapterGo f b = _
          rw [ih hbf hbf']
          show _ = (match dropPre chapterLit (c :: cs) with
                    | some b => [] :: splitChapterGo f' b
                    | none =>
                      match splitChapterGo f' cs with
                      | [] => [[c]]
                      | seg :: segs => (c :: seg) :: segs)
          rw [hd]

theorem splitChapter_nil : splitChapter [] = [[]] := rfl

theorem splitChapter_cons (c : Char) (cs : GoStr) :
    splitChapter (c :: cs) =
      match dropPre chapterLit (c :: cs) with
      | some b => [] :: splitChapter b
      | none =>
        match splitChapter cs with
        | [] => [[c]]
        | seg :: segs => (c :: seg) :: segs := by
  show splitChapterGo (cs.length + 1) (c :: cs) = _
  rcases hd : dropPre chapterLit (c :: cs) with _ | b
  · show (match dropPre chapterLit (c :: cs) with
          | some b => [] :: splitChapterGo cs.length b
          | none =>
            match splitChapterGo cs.length cs with
            | [] => [[c]]
            | seg :: segs => (c :: seg) :: segs) = _
    rw [hd]
    rfl
  · have hlen := dropPre_length hd
    simp only [chapterLit, chars, List.length_cons] at hlen
    show (match dropPre chapterLit (c :: cs) with
          | some b => [] :: splitChapterGo cs.length b
          | none =>
            match splitChapterGo cs.length cs with
            | [] => [[c]]
            | seg :: segs => (c :: seg) :: segs) = _
    rw [hd]
    show [] :: splitChapterGo cs.length b = [] :: splitChapter b
    rw [splitChapterGo_fuel (s := b) (by simp at hlen; omega) (le_refl b.length)]
    rfl

theorem splitChapter_ne_nil (s : GoStr) : splitChapter s ≠ [] := by
  cases s with
  | nil => simp [splitChapter_nil]
  | cons c cs =>
    rw [splitChapter_cons]
    rcases dropPre chapterLit (c :: cs) with _ | b
    · rcases splitChapter cs with _ | ⟨seg, segs⟩ <;> simp
    · simp

theorem splitChapter_length_of_occurrence {s a b : GoStr}
    (h : s = a ++ (chapterLit ++ b)) : 2 ≤ (splitChapter s).length := by
  induction a generalizing s with
  | nil =>
    subst h
    simp only [List.nil_append]
    have hlit : chapterLit ++ b = 'C' :: (chars "hapter" ++ b) := rfl
    rw [hlit, splitChapter_cons]
    have hdrop : dropPre chapterLit ('C' :: (chars "hapter" ++ b)) = some b := by
      have := dropPre_append chapterLit b
      simpa [hlit] using this
    rw [hdrop]
    have hpos := List.length_pos.mpr (splitChapter_ne_nil b)
    simp only [List.length_cons]
    omega
  | cons c a2 ih =>
    subst h
    simp only [List.cons_append]
    rw [splitChapter_cons]
    rcases dropPre chapterLit (c :: (a2 ++ (chapterLit ++ b))) with _ | b2
    · have h2 := ih (s := a2 ++ (chapterLit ++ b)) rfl
      rcases hs : splitChapter (a2 ++ (chapterLit ++ b)) with _ | ⟨seg, segs⟩
      · exact absurd hs (splitChapter_ne_nil _)
      · rw [hs] at h2
        simpa using h2
    · have hpos := List.length_pos.mpr (splitChapter_ne_nil b2)
      simp only [List.length_cons]
      omega

-- Association-list facts shared by the store and the table.

theorem lookupAL_upsert_self (st : Store) (k : GoStr) (v : ChapterInfo) :
    lookupAL (upsertAL st k v) k = some v := by
  induction st with
  | nil => simp [upsertAL, lookupAL]
  | cons kv rest ih =>
    obtain ⟨k2, v2⟩ := kv
    by_cases hk : k2 = k <;> simp [upsertAL, lookupAL, hk, ih]

theorem lookupAL_upsert_ne (st : Store) (k k2 : GoStr) (v : ChapterInfo)
    (h : k2 ≠ k) : lookupAL (upsertAL st k v) k2 = lookupAL st k2 := by
  induction st with
  | nil => simp [upsertAL, lookupAL, Ne.symm h]
  | cons kv rest ih =>
    obtain ⟨k3, v3⟩ := kv
    by_cases hk : k3 = k
    · subst hk
      simp [upsertAL, lookupAL, Ne.symm h]
    · simp only [upsertAL, if_neg hk]
      by_cases hk32 : k3 = k2 <;> simp [lookupAL, hk32, ih]

theorem lookupAL_upsert_isSome (st : Store) (k k2 : GoStr) (v : ChapterInfo)
    (h : (lookupAL st k2).isSome = true) :
    (lookupAL (upsertAL st k v) k2).isSome = true := by
  by_cases hk : k2 = k
  · subst hk
    simp [lookupAL_upsert_self]
  · rwa [lookupAL_upsert_ne st k k2 v hk]

theorem mem_of_lookupAL_isSome {st : Store} {k : GoStr}
    (h : (lookupAL st k).isSome = true) : ∃ v, (k, v) ∈ st := by
  induction st with
  | nil => simp [lookupAL] at h
  | cons kv rest ih =>
    obtain ⟨k2, v2⟩ := kv
    by_cases hk : k2 = k
    · exact ⟨v2, by simp [hk]⟩
    · simp only [lookupAL, hk, if_false] at h
      obtain ⟨v, hv⟩ := ih h
      exact ⟨v, by simp [hv]⟩

theorem lookupAL_foldl_upsert_isSome (l : List (GoStr × ChapterInfo))
    (acc : Store) (k : GoStr) (h : (lookupAL acc k).isSome = true) :
    (lookupAL (l.foldl (fun a kv => upsertAL a kv.1 kv.2) acc) k).isSome = true := by
  induction l generalizing acc with
  | nil => simpa using h
  | cons kv rest ih =>
    simp only [List.foldl_cons]
    exact ih _ (lookupAL_upsert_isSome _ _ _ _ h)

theorem lookupAL_foldl_upsert_of_mem {l : List (GoStr × ChapterInfo)}
    {k : GoStr} {v : ChapterInfo} (acc : Store) (h : (k, v) ∈ l) :
    (lookupAL (l.foldl (fun a kv => upsertAL a kv.1 kv.2) acc) k).isSome = true := by
  induction l generalizing acc with
  | nil => simp at h
  | cons kv rest ih =>
    rcases List.mem_cons.mp h with heq | hmem
    · subst heq
      exact lookupAL_foldl_upsert_isSome rest _ k
        (by simp [lookupAL_upsert_self])
    · exact ih _ hmem

theorem upsertAL_absent {st : Store} {k : GoStr} (v : ChapterInfo)
    (h : lookupAL st k = none) : upsertAL st k v = st ++ [(k, v)] := by
  induction st with
  | nil => simp [upsertAL]
  | cons kv rest ih =>
    obtain ⟨k2, v2⟩ := kv
    by_cases hk : k2 = k
    · simp [lookupAL, hk] at h
    · simp only [lookupAL, hk, if_false] at h
      simp [upsertAL, hk, ih h]

theorem lookupAL_append (a b : Store) (k : GoStr) :
    lookupAL (a ++ b) k =
      match lookupAL a k with
      | some v => some v
      | none => lookupAL b k := by
  induction a with
  | nil => simp [lookupAL]
  | cons kv rest ih =>
    obtain ⟨k2, v2⟩ := kv
    by_cases hk : k2 = k <;> simp [lookupAL, hk, ih]

theorem foldl_upsert_all_absent {recs : List (GoStr × ChapterInfo)}
    (acc : Store) (hnd : (recs.map Prod.fst).Nodup)
    (habs : ∀ kv ∈ recs, lookupAL acc kv.1 = none) :
    recs.foldl (fun a kv => upsertAL a kv.1 kv.2) acc = acc ++ recs := by
  induction recs generalizing acc with
  | nil => simp
  | cons kv rest ih =>
    obtain ⟨k, v⟩ := kv
    simp only [List.map_cons, List.nodup_cons] at hnd
    have hacc : lookupAL acc k = none := habs (k, v) (by simp)
    have habs2 : ∀ kv2 ∈ rest, lookupAL (acc ++ [(k, v)]) kv2.1 = none := by
      intro kv2 hkv2
      rw [lookupAL_append, habs kv2 (List.mem_cons_of_mem _ hkv2)]
      have hne : ¬k = kv2.1 := fun hkk =>
        hnd.1 (by rw [hkk]; exact List.mem_map_of_mem Prod.fst hkv2)
      simp [lookupAL, hne]
    simp only [List.foldl_cons]
    rw [upsertAL_absent v hacc, ih (acc ++ [(k, v)]) hnd.2 habs2]
    simp

-- Shape of one candidate dispatch: either nothing is stored and nothing is
-- sent, or exactly one store insert followed by one notification send occur,
-- for a key that was absent and whose subject is on the watch list.

theorem processHTMLElement_cases (ctx : Ctx) (st : Store) (e : Candidate) :
    processHTMLElement ctx st e = (st, [], Outcome.ok) ∨
    processHTMLElement ctx st e = (st, [], Outcome.fatalTime) ∨
    processHTMLElement ctx st e = (st, [], Outcome.splitOob) ∨
    (∃ k info desc,
      processHTMLElement ctx st e =
        (upsertAL st k info,
         [Event.storeEv k info,
          Event.notifyEv k info.mangaTitle desc
            (websiteURL ++ e.releaseLink)
            (chars "Released at " ++ info.releaseTime) 3447003],
         Outcome.ok) ∧
      lookupAL st k = none ∧
      info.mangaTitle ∈ ctx.watchedMangas ∧
      k = info.mangaTitle ++ sepTitle ++ info.chapterNumber) := by
  by_cases h1 : e.releaseTitle = []
  · exact Or.inl (by simp [processHTMLElement, h1])
  by_cases h2 : e.releaseLink = []
  · exact Or.inl (by simp [processHTMLElement, h1, h2])
  by_cases h3 : e.releaseTime = []
  · exact Or.inl (by simp [processHTMLElement, h1, h2, h3])
  by_cases h4 : isValidReleaseTitle e.releaseTitle = true
  case neg => exact Or.inl (by simp [processHTMLElement, h1, h2, h3, h4])
  by_cases h5 : isValidReleaseLink e.releaseLink = true
  case neg => exact Or.inl (by simp [processHTMLElement, h1, h2, h3, h4, h5])
  rcases hsplit : splitChapter (ctx.unescape e.releaseTitle) with _ | ⟨s0, tail0⟩
  · exact Or.inr (Or.inr (Or.inl
      (by simp [processHTMLElement, h1, h2, h3, h4, h5, hsplit])))
  rcases tail0 with _ | ⟨s1, tail⟩
  · exact Or.inr (Or.inr (Or.inl
      (by simp [processHTMLElement, h1, h2, h3, h4, h5, hsplit])))
  by_cases h6 : trimSpace s0 ∈ ctx.watchedMangas
  case neg =>
    exact Or.inl (by simp [processHTMLElement, h1, h2, h3, h4, h5, hsplit, h6])
  by_cases h7 : (lookupAL st (trimSpace s0 ++ sepTitle ++ trimSpace s1)).isSome = true
  · exact Or.inl
      (by simp [processHTMLElement, h1, h2, h3, h4, h5, hsplit, h6, h7,
            -List.append_assoc])
  rcases hfmt : ctx.parseTime e.releaseTime with _ | fmt
  · exact Or.inr (Or.inl
      (by simp [processHTMLElement, h1, h2, h3, h4, h5, hsplit, h6, h7, hfmt,
            -List.append_assoc]))
  right; right; right
  refine ⟨trimSpace s0 ++ sepTitle ++ trimSpace s1,
    ⟨e.releaseLink, trimSpace s0, trimSpace s1, ctx.unescape e.chapterTitle, fmt⟩,
    (if ctx.unescape e.chapterTitle = [] then
       chars "Chapter " ++ trimSpace s1 ++ chars "\n"
     else
       chars "Chapter " ++ trimSpace s1 ++ chars ": " ++
         ctx.unescape e.chapterTitle ++ chars "\n"),
    ?_, ?_, h6, rfl⟩
  · simp [processHTMLElement, h1, h2, h3, h4, h5, hsplit, h6, h7, hfmt,
      -List.append_assoc]
  · exact Option.not_isSome_iff_eq_none.mp h7

-- Trace-counting facts used by the at-most-once theorem.

theorem countKeyNotify_nil (k : GoStr) : countKeyNotify k [] = 0 := rfl

theorem countKeyNotify_append (k : GoStr) (evs1 evs2 : List Event) :
    countKeyNotify k (evs1 ++ evs2) =
      countKeyNotify k evs1 + countKeyNotify k evs2 := by
  simp [countKeyNotify, List.filter_append]

theorem countKeyNotify_pair (k k2 : GoStr) (info : ChapterInfo)
    (t d u f : GoStr) (col : Nat) :
    countKeyNotify k [Event.storeEv k2 info, Event.notifyEv k2 t d u f col] =
      if k2 = k then 1 else 0 := by
  by_cases h : k2 = k <;> simp [countKeyNotify, h]

theorem runCandidates_lookup_mono (ctx : Ctx) (st : Store) (cs : List Candidate)
    (k : GoStr) (h : (lookupAL st k).isSome = true) :
    (lookupAL (runCandidates ctx st cs).1 k).isSome = true := by
  induction cs generalizing st with
  | nil => simpa [runCandidates] using h
  | cons c cs ih =>
    rcases processHTMLElement_cases ctx st c with hc | hc | hc |
      ⟨k2, info, desc, heq, hnone, hmem, hkey⟩
    · simpa [runCandidates, hc] using ih st h
    · simpa [runCandidates, hc] using h
    · simpa [runCandidates, hc] using h
    · simp only [runCandidates, heq]
      exact ih _ (lookupAL_upsert_isSome _ _ _ _ h)

theorem runCandidates_count_zero (ctx : Ctx) (st : Store) (cs : List Candidate)
    (k : GoStr) (h : (lookupAL st k).isSome = true) :
    countKeyNotify k (runCandidates ctx st cs).2.1 = 0 := by
  induction cs generalizing st with
  | nil => simp [runCandidates, countKeyNotify_nil]
  | cons c cs ih =>
    rcases processHTMLElement_cases ctx st c with hc | hc | hc |
      ⟨k2, info, desc, heq, hnone, hmem, hkey⟩
    · simpa [runCandidates, hc, countKeyNotify_append, countKeyNotify_nil]
        using ih st h
    · simp [runCandidates, hc, countKeyNotify_nil]
    · simp [runCandidates, hc, countKeyNotify_nil]
    · have hk2 : ¬k2 = k := by
        intro hkk
        rw [hkk] at hnone
        rw [hnone] at h
        simp at h
      simp only [runCandidates, heq, countKeyNotify_append]
      rw [countKeyNotify_pair, if_neg hk2]
      have h2 := ih _ (lookupAL_upsert_isSome st k2 k info h)
      simpa using h2

theorem runCandidates_count_le_one (ctx : Ctx) (st : Store)
    (cs : List Candidate) (k : GoStr) :
    countKeyNotify k (runCandidates ctx st cs).2.1 ≤ 1 ∧
      (1 ≤ countKeyNotify k (runCandidates ctx st cs).2.1 →
        (lookupAL (runCandidates ctx st cs).1 k).isSome = true) := by
  induction cs generalizing st with
  | nil => simp [runCandidates, countKeyNotify_nil]
  | cons c cs ih =>
    rcases processHTMLElement_cases ctx st c with hc | hc | hc |
      ⟨k2, info, desc, heq, hnone, hmem, hkey⟩
    · simpa [runCandidates, hc, countKeyNotify_append, countKeyNotify_nil]
        using ih st
    · simp [runCandidates, hc, countKeyNotify_nil]
    · simp [runCandidates, hc, countKeyNotify_nil]
    · by_cases hk2 : k2 = k
      · subst hk2
        have hzero := runCandidates_count_zero ctx (upsertAL st k2 info) cs k2
          (by simp [lookupAL_upsert_self])
        have hmono := runCandidates_lookup_mono ctx (upsertAL st k2 info) cs k2
          (by simp [lookupAL_upsert_self])
        simp only [runCandidates, heq, countKeyNotify_append]
        rw [countKeyNotify_pair, if_pos rfl]
        refine ⟨?_, fun _ => by simpa using hmono⟩
        simp [hzero]
      · simp only [runCandidates, heq, countKeyNotify_append]
        rw [countKeyNotify_pair, if_neg hk2]
        have h2 := ih (upsertAL st k2 info)
        simpa using h2

-- Indexing facts for the error/resolution machine.

theorem runErrorMachine_length (l : GoStr) (rs : List CycleResult) :
    (runErrorMachine l rs).length = rs.length := by
  induction rs generalizing l with
  | nil => rfl
  | cons r rest ih => simp [runErrorMachine, ih]

theorem lastAfter_nil (l : GoStr) : lastAfter l [] = l := rfl

theorem lastAfter_cons (l : GoStr) (r : CycleResult) (rs : List CycleResult) :
    lastAfter l (r :: rs) = lastAfter (errorStep l r).1 rs := rfl

theorem runErrorMachine_getD (l : GoStr) (rs : List CycleResult) (i : Nat)
    (h : i < rs.length) :
    (runErrorMachine l rs).getD i [] =
      (errorStep (lastAfter l (rs.take i)) (rs.getD i CycleResult.success)).2 := by
  induction rs generalizing l i with
  | nil => simp at h
  | cons r rest ih =>
    cases i with
    | zero => simp [runErrorMachine, lastAfter_nil]
    | succ j =>
      have hj : j < rest.length := by simpa using h
      simp only [runErrorMachine, List.getD_cons_succ, List.take_succ_cons,
        lastAfter_cons]
      exact ih _ j hj

theorem lastAfter_take_succ (l : GoStr) (rs : List CycleResult) (i : Nat)
    (h : i < rs.length) :
    lastAfter l (rs.take (i + 1)) =
      (errorStep (lastAfter l (rs.take i)) (rs.getD i CycleResult.success)).1 := by
  induction rs generalizing l i with
  | nil => simp at h
  | cons r rest ih =>
    cases i with
    | zero => simp [lastAfter_cons, lastAfter_nil]
    | succ j =>
      have hj : j < rest.length := by simpa using h
      simp only [List.take_succ_cons, List.getD_cons_succ, lastAfter_cons]
      exact ih _ j hj

-- Characterization of the release-title matcher.

theorem all_takeWhile_isDig (l : GoStr) : (l.takeWhile isDig).all isDig = true := by
  induction l with
  | nil => rfl
  | cons c cs ih =>
    by_cases h : isDig c = true <;> simp [List.takeWhile, h, ih]

theorem takeWhile_isDig_self {a : GoStr} (ha : a.all isDig = true) :
    a.takeWhile isDig = a ∧ a.dropWhile isDig = [] := by
  induction a with
  | nil => simp
  | cons c cs ih =>
    simp only [List.all_cons, Bool.and_eq_true] at ha
    simp [List.takeWhile, List.dropWhile, ha.1, ih ha.2]

theorem takeWhile_isDig_append {a : GoStr} (t : GoStr)
    (ha : a.all isDig = true) :
    (a ++ '.' :: t).takeWhile isDig = a ∧
      (a ++ '.' :: t).dropWhile isDig = '.' :: t := by
  induction a with
  | nil => simp [List.takeWhile, List.dropWhile, isDig]
  | cons c cs ih =>
    simp only [List.all_cons, Bool.and_eq_true] at ha
    simp [List.takeWhile, List.dropWhile, ha.1, ih ha.2]

theorem isNum_iff (num : GoStr) : isNum num = true ↔ numShape num := by
  constructor
  · intro h
    simp only [isNum, Bool.and_eq_true, decide_eq_true_eq] at h
    obtain ⟨hds, hr⟩ := h
    have hsplit := List.takeWhile_append_dropWhile (p := isDig) (l := num)
    rcases hrr : num.dropWhile isDig with _ | ⟨c, t⟩
    · left
      rw [hrr] at hsplit
      simp only [List.append_nil] at hsplit
      exact ⟨by rwa [hsplit] at hds, by rw [← hsplit]; exact all_takeWhile_isDig num⟩
    · rw [hrr] at hr
      split at hr
      · next heq => exact absurd heq (by simp)
      · next t2 heq =>
        obtain ⟨hc, ht⟩ : c = '.' ∧ t = t2 := by
          injection heq with h1 h2
          exact ⟨h1, h2⟩
        subst hc
        subst ht
        right
        have hbne : t ≠ [] := by
          intro hnil
          subst hnil
          simp_all
        have hball : t.all isDig = true := by
          simp_all [List.all_eq_true]
        refine ⟨num.takeWhile isDig, t, hds, hbne, all_takeWhile_isDig num,
          hball, ?_⟩
        rw [← hrr]
        exact hsplit.symm
      · exact absurd hr (by simp)
  · intro h
    rcases h with ⟨hne, hall⟩ | ⟨a, b, hane, hbne, haall, hball, heq⟩
    · obtain ⟨ht, hd⟩ := takeWhile_isDig_self hall
      simp [isNum, ht, hd, hne]
    · subst heq
      obtain ⟨ht, hd⟩ := takeWhile_isDig_append b haall
      simp [isNum, ht, hd, hane, hbne, hball]

theorem isValidReleaseTitle_iff (s : GoStr) :
    isValidReleaseTitle s = true ↔
      ∃ subj num, subj ≠ [] ∧ (∀ x ∈ subj, x ≠ '\n') ∧ isNum num = true ∧
        s = subj ++ sepTitle ++ num := by
  induction s with
  | nil =>
    constructor
    · intro h
      simp [isValidReleaseTitle] at h
    · rintro ⟨subj, num, hne, _, _, heq⟩
      rcases subj with _ | ⟨c, subj2⟩
      · exact absurd rfl hne
      · simp at heq
  | cons c rest ih =>
    simp only [isValidReleaseTitle, Bool.and_eq_true, Bool.or_eq_true,
      decide_eq_true_eq]
    constructor
    · rintro ⟨hc, hbranch | hrec⟩
      · rcases hdp : dropPre sepTitle rest with _ | num
        · rw [hdp] at hbranch
          exact absurd hbranch (by simp)
        · rw [hdp] at hbranch
          have hrest := dropPre_some hdp
          refine ⟨[c], num, by simp, ?_, hbranch, ?_⟩
          · intro x hx
            simp only [List.mem_singleton] at hx
            subst hx
            exact hc
          · simp [hrest]
      · obtain ⟨subj, num, hne, hnl, hnum, heq⟩ := ih.mp hrec
        refine ⟨c :: subj, num, by simp, ?_, hnum, by simp [heq]⟩
        intro x hx
        rcases List.mem_cons.mp hx with hx | hx
        · subst hx
          exact hc
        · exact hnl x hx
    · rintro ⟨subj, num, hne, hnl, hnum, heq⟩
      rcases subj with _ | ⟨c2, subj2⟩
      · exact absurd rfl hne
      · simp only [List.cons_append, List.append_assoc] at heq
        obtain ⟨hcc, hrest⟩ : c = c2 ∧ rest = subj2 ++ (sepTitle ++ num) := by
          injection heq with h1 h2
          exact ⟨h1, h2⟩
        refine ⟨?_, ?_⟩
        · subst hcc
          exact hnl c (by simp)
        · rcases subj2 with _ | ⟨c3, subj3⟩
          · left
            rw [hrest]
            simp only [List.nil_append]
            rw [dropPre_append sepTitle num]
            exact hnum
          · right
            exact ih.mpr ⟨c3 :: subj3, num, by simp,
              fun x hx => hnl x (List.mem_cons_of_mem _ hx), hnum,
              by simp [hrest]⟩

theorem valid_title_occurrence {s : GoStr} (h : isValidReleaseTitle s = true) :
    ∃ a b, s = a ++ (chapterLit ++ b) := by
  obtain ⟨subj, num, _, _, _, heq⟩ := (isValidReleaseTitle_iff s).mp h
  refine ⟨subj ++ [' '], ' ' :: num, ?_⟩
  rw [heq]
  simp only [List.append_assoc]
  rfl

theorem valid_title_split_length {s : GoStr}
    (h : isValidReleaseTitle s = true) : 2 ≤ (splitChapter s).length := by
  obtain ⟨a, b, hab⟩ := valid_title_occurrence h
  exact splitChapter_length_of_occurrence hab

-- Upsert form of a successful bulk save.

theorem saveCollectedChapters_allOk (st : Store) (t : Table) :
    saveCollectedChapters (fun _ _ => true) st t =
      some (st.foldl (fun a kv => upsertAL a kv.1 kv.2) t) := by
  induction st generalizing t with
  | nil => rfl
  | cons kv rest ih =>
    obtain ⟨k, v⟩ := kv
    simp [saveCollectedChapters, ih]

/-- C1: across a run of candidate dispatches — within one cycle, across later
cycles (runs compose by concatenation), and across a restart that flushes the
store and rehydrates a fresh one — at most one release notification is sent
for any identity key that was absent from the initial store. -/
theorem c1_at_most_once_per_identity_key (ctx : Ctx) (st0 : Store)
    (cs1 cs2 : List Candidate) (k : GoStr) (tbl : Table)
    (hk : lookupAL st0 k = none)
    (hsave : saveCollectedChapters (fun _ _ => true)
      (runCandidates ctx st0 cs1).1 [] = some tbl) :
    countKeyNotify k (runCandidates ctx st0 cs1).2.1 +
      countKeyNotify k
        (runCandidates ctx (loadCollectedChapters tbl []) cs2).2.1 ≤ 1 := by
  obtain ⟨hle1, himp1⟩ := runCandidates_count_le_one ctx st0 cs1 k
  by_cases h1 : 1 ≤ countKeyNotify k (runCandidates ctx st0 cs1).2.1
  · have hpresent := himp1 h1
    have htbl : tbl = (runCandidates ctx st0 cs1).1.foldl
        (fun a kv => upsertAL a kv.1 kv.2) [] := by
      rw [saveCollectedChapters_allOk] at hsave
      exact (Option.some_injective _ hsave).symm
    obtain ⟨v, hv⟩ := mem_of_lookupAL_isSome hpresent
    have htblk : (lookupAL tbl k).isSome = true := by
      rw [htbl]
      exact lookupAL_foldl_upsert_of_mem [] hv
    obtain ⟨v2, hv2⟩ := mem_of_lookupAL_isSome htblk
    have hload : (lookupAL (loadCollectedChapters tbl []) k).isSome = true :=
      lookupAL_foldl_upsert_of_mem [] hv2
    have hzero := runCandidates_count_zero ctx (loadCollectedChapters tbl [])
      cs2 k hload
    omega
  · obtain ⟨hle2, _⟩ :=
      runCandidates_count_le_one ctx (loadCollectedChapters tbl []) cs2 k
    omega

/-- Witness for C1 at a concrete duplicated candidate, including one replay
after a simulated restart: the two hypotheses hold at the concrete input and
the combined trace notifies at most once. -/
theorem c1_witness :
    lookupAL ([] : Store) keyOP = none ∧
    saveCollectedChapters (fun _ _ => true)
      (runCandidates ctxOP [] [candOP, candOP]).1 [] = some [(keyOP, infoOP)] ∧
    countKeyNotify keyOP (runCandidates ctxOP [] [candOP, candOP]).2.1 +
      countKeyNotify keyOP
        (runCandidates ctxOP
          (loadCollectedChapters [(keyOP, infoOP)] []) [candOP]).2.1 ≤ 1 :=
  ⟨by decide, by decide,
    c1_at_most_once_per_identity_key ctxOP [] [candOP, candOP] [candOP]
      keyOP [(keyOP, infoOP)] (by decide) (by decide)⟩

/-- C2 counterexample: on the end-to-end example candidate the dispatch trace
is the store insert at position zero followed by the notification send at
position one — the insert precedes the send attempt, contradicting the
claimed notify-before-insert ordering. -/
theorem c2_counterexample_insert_precedes_send :
    (runCandidates ctxOP [] [candOP]).2.1 =
      [Event.storeEv keyOP infoOP,
       Event.notifyEv keyOP (chars "One Piece")
         (chars "Chapter 1100: Final Arc\n")
         (chars "https://tcbscans.me/chapters/123/one-piece-chapter-1100")
         (chars "Released at Wed, 01 May 2024 14:00:00 CEST") 3447003] := by
  decide

/-- C2 (amended): in the per-record dispatch path, whenever the dedup store
reports the identity key absent and the record is dispatched, the record is
inserted into the dedup store strictly before the outbound notification send
is attempted; otherwise nothing is emitted. -/
theorem c2_amended_insert_before_send (ctx : Ctx) (st : Store) (e : Candidate) :
    (processHTMLElement ctx st e).2.1 = [] ∨
    ∃ k info desc,
      lookupAL st k = none ∧
      (processHTMLElement ctx st e).2.1 =
        [Event.storeEv k info,
         Event.notifyEv k info.mangaTitle desc (websiteURL ++ e.releaseLink)
           (chars "Released at " ++ info.releaseTime) 3447003] := by
  rcases processHTMLElement_cases ctx st e with hc | hc | hc |
    ⟨k, info, desc, heq, hnone, hmem, hkey⟩
  · exact Or.inl (by rw [hc])
  · exact Or.inl (by rw [hc])
  · exact Or.inl (by rw [hc])
  · exact Or.inr ⟨k, info, desc, hnone, by rw [heq]⟩

/-- C3: over any cycle-outcome sequence started with an empty
`lastErrorMessage`, a failing cycle emits exactly one error notification
precisely when its formatted message differs from the current
`lastErrorMessage` (which it then becomes), a failing cycle with the same
message emits nothing, and a successful cycle emits exactly one resolution
notification precisely when `lastErrorMessage` is non-empty (which is then
cleared); in particular fail m, fail m, fail m, success, fail mNew yields
exactly one error, one resolution, one new error notification. -/
theorem c3_error_resolution_single_flight (rs : List CycleResult) (i : Nat)
    (h : i < rs.length) (m mNew : GoStr) (hne : m ≠ mNew) :
    (∀ msg, rs.getD i CycleResult.success = CycleResult.fail msg →
       errCount ((runErrorMachine [] rs).getD i []) =
         (if errorTag ++ msg ≠ lastAfter [] (rs.take i) then 1 else 0) ∧
       resCount ((runErrorMachine [] rs).getD i []) = 0 ∧
       lastAfter [] (rs.take (i + 1)) = errorTag ++ msg) ∧
    (rs.getD i CycleResult.success = CycleResult.success →
       errCount ((runErrorMachine [] rs).getD i []) = 0 ∧
       resCount ((runErrorMachine [] rs).getD i []) =
         (if lastAfter [] (rs.take i) ≠ [] then 1 else 0) ∧
       lastAfter [] (rs.take (i + 1)) = []) ∧
    runErrorMachine []
        [CycleResult.fail m, CycleResult.fail m, CycleResult.fail m,
         CycleResult.success, CycleResult.fail mNew] =
      [[ErrEvent.errorNotif (errorTag ++ m)], [], [],
       [ErrEvent.resolvedNotif], [ErrEvent.errorNotif (errorTag ++ mNew)]] := by
  have hm : errorTag ++ m ≠ [] := by
    have hrw : errorTag ++ m = 'U' :: (chars "nexpected error occurred: " ++ m) :=
      rfl
    rw [hrw]
    exact List.cons_ne_nil _ _
  have hmNew : errorTag ++ mNew ≠ [] := by
    have hrw : errorTag ++ mNew =
        'U' :: (chars "nexpected error occurred: " ++ mNew) := rfl
    rw [hrw]
    exact List.cons_ne_nil _ _
  refine ⟨?_, ?_, ?_⟩
  · intro msg hmsg
    rw [runErrorMachine_getD [] rs i h, lastAfter_take_succ [] rs i h, hmsg]
    by_cases hd : errorTag ++ msg ≠ lastAfter [] (rs.take i)
    · simp [errorStep, hd, errCount, resCount]
    · simp only [not_not] at hd
      simp [errorStep, hd, errCount, resCount]
  · intro hmsg
    rw [runErrorMachine_getD [] rs i h, lastAfter_take_succ [] rs i h, hmsg]
    by_cases hd : lastAfter [] (rs.take i) ≠ []
    · simp [errorStep, hd, errCount, resCount]
    · simp only [not_not] at hd
      simp [errorStep, hd, errCount, resCount]
  · simp [runErrorMachine, errorStep, hm, hmNew]

/-- Witness for C3: the hypotheses hold at a concrete five-cycle outcome
sequence and the machine emits exactly one error, one resolution, and one new
error notification. -/
theorem c3_witness :
    (0 : Nat) < [CycleResult.fail (chars "boom")].length ∧
    chars "boom" ≠ chars "fizz" ∧
    runErrorMachine []
        [CycleResult.fail (chars "boom"), CycleResult.fail (chars "boom"),
         CycleResult.fail (chars "boom"), CycleResult.success,
         CycleResult.fail (chars "fizz")] =
      [[ErrEvent.errorNotif (errorTag ++ chars "boom")], [], [],
       [ErrEvent.resolvedNotif],
       [ErrEvent.errorNotif (errorTag ++ chars "fizz")]] :=
  ⟨by decide, by decide,
    (c3_error_resolution_single_flight [CycleResult.fail (chars "boom")] 0
      (by decide) (chars "boom") (chars "fizz") (by decide)).2.2⟩

/-- C4 counterexample: for the composite title `One Piece Chapter 1100` the
key actually stored is `One Piece Chapter 1100`, which differs from the
claimed `subjectTitle ++ " " ++ sequenceLabel` key `One Piece 1100`. -/
theorem c4_counterexample_key_keeps_chapter_marker :
    (runCandidates ctxOP [] [candOP]).2.1.head? =
      some (Event.storeEv (chars "One Piece Chapter 1100") infoOP) ∧
    (chars "One Piece Chapter 1100" : GoStr) ≠ chars "One Piece 1100" := by
  decide

/-- C4 (amended): every stored record sits under the key
`subjectTitle ++ " Chapter " ++ sequenceLabel` — the literal ` Chapter `
marker between the two parts — and the record is retrievable under exactly
that key after the dispatch. -/
theorem c4_amended_identity_key_format (ctx : Ctx) (st : Store) (e : Candidate)
    (k : GoStr) (info : ChapterInfo)
    (hmem : Event.storeEv k info ∈ (processHTMLElement ctx st e).2.1) :
    k = info.mangaTitle ++ chars " Chapter " ++ info.chapterNumber ∧
    lookupAL (processHTMLElement ctx st e).1 k = some info := by
  rcases processHTMLElement_cases ctx st e with hc | hc | hc |
    ⟨k2, info2, desc, heq, hnone, hwatch, hkey⟩
  · rw [hc] at hmem
    simp at hmem
  · rw [hc] at hmem
    simp at hmem
  · rw [hc] at hmem
    simp at hmem
  · rw [heq] at hmem
    simp only [List.mem_cons, List.not_mem_nil, or_false] at hmem
    rcases hmem with hmem | hmem
    · obtain ⟨hk, hinfo⟩ : k = k2 ∧ info = info2 := by
        injection hmem with h1 h2
        exact ⟨h1, h2⟩
      subst hk
      subst hinfo
      refine ⟨hkey, ?_⟩
      rw [heq]
      exact lookupAL_upsert_self st k info
    · exact absurd hmem (by simp)

/-- Witness for C4 (amended): the store event of the end-to-end example is in
the trace, its key carries the ` Chapter ` marker, and the record is stored
under it. -/
theorem c4_witness :
    Event.storeEv keyOP infoOP ∈ (processHTMLElement ctxOP [] candOP).2.1 ∧
    (keyOP = infoOP.mangaTitle ++ chars " Chapter " ++ infoOP.chapterNumber ∧
     lookupAL (processHTMLElement ctxOP [] candOP).1 keyOP = some infoOP) :=
  ⟨by decide, c4_amended_identity_key_format ctxOP [] candOP keyOP infoOP
    (by decide)⟩

/-- C5: a notification can only be sent for a subject that is a member of the
watched list — membership is whole-string, case-sensitive equality — and in
particular the subject `One Piece Dokoda?!` is dropped without any event when
only `One Piece` is watched. -/
theorem c5_watch_filter_exact_membership (ctx : Ctx) (st : Store)
    (e : Candidate) (k t d u f : GoStr) (col : Nat)
    (hmem : Event.notifyEv k t d u f col ∈ (processHTMLElement ctx st e).2.1) :
    t ∈ ctx.watchedMangas ∧
    processHTMLElement ctxOP [] candDokoda = ([], [], Outcome.ok) := by
  refine ⟨?_, by decide⟩
  rcases processHTMLElement_cases ctx st e with hc | hc | hc |
    ⟨k2, info2, desc, heq, hnone, hwatch, hkey⟩
  · rw [hc] at hmem
    simp at hmem
  · rw [hc] at hmem
    simp at hmem
  · rw [hc] at hmem
    simp at hmem
  · rw [heq] at hmem
    simp only [List.mem_cons, List.not_mem_nil, or_false] at hmem
    rcases hmem with hmem | hmem
    · exact absurd hmem (by simp)
    · injection hmem with h1 h2 h3 h4 h5 h6
      rw [h2]
      exact hwatch

/-- Witness for C5: the end-to-end example notification is in the trace, its
subject is a member of the watched list, and the superstring subject is
dropped. -/
theorem c5_witness :
    Event.notifyEv keyOP (chars "One Piece")
        (chars "Chapter 1100: Final Arc\n")
        (chars "https://tcbscans.me/chapters/123/one-piece-chapter-1100")
        (chars "Released at Wed, 01 May 2024 14:00:00 CEST") 3447003 ∈
      (processHTMLElement ctxOP [] candOP).2.1 ∧
    (chars "One Piece" ∈ ctxOP.watchedMangas ∧
     processHTMLElement ctxOP [] candDokoda = ([], [], Outcome.ok)) :=
  ⟨by decide,
    c5_watch_filter_exact_membership ctxOP [] candOP keyOP (chars "One Piece")
      (chars "Chapter 1100: Final Arc\n")
      (chars "https://tcbscans.me/chapters/123/one-piece-chapter-1100")
      (chars "Released at Wed, 01 May 2024 14:00:00 CEST") 3447003 (by decide)⟩

/-- C6 counterexample: the string with a newline inside the subject has the
claimed shape `<subject> Chapter <number>` with a non-empty subject, yet the
validator rejects it — the RE2 dot never matches a newline, so the claimed
if-and-only-if fails. -/
theorem c6_counterexample_newline_subject :
    specTitleShape (chars "a\nb Chapter 5") ∧
    isValidReleaseTitle (chars "a\nb Chapter 5") = false :=
  ⟨⟨chars "a\nb", chars "5", by decide, Or.inl ⟨by decide, by decide⟩,
    by decide⟩, by decide⟩

/-- C6 (amended): a composite title is accepted by the validator exactly when
it decomposes as a non-empty newline-free subject, the literal ` Chapter `
with its single surrounding spaces, and a trailing integer or decimal number;
in particular `just a string` is rejected and its candidate produces no
store change, no event and no abort. -/
theorem c6_amended_title_validation (s : GoStr) :
    (isValidReleaseTitle s = true ↔
      ∃ subj num, subj ≠ [] ∧ (∀ x ∈ subj, x ≠ '\n') ∧ numShape num ∧
        s = subj ++ sepTitle ++ num) ∧
    isValidReleaseTitle (chars "just a string") = false ∧
    runCandidates ctxOP [] [candMalformed] = ([], [], Outcome.ok) := by
  refine ⟨?_, by decide, by decide⟩
  rw [isValidReleaseTitle_iff s]
  constructor
  · rintro ⟨subj, num, hne, hnl, hnum, heq⟩
    exact ⟨subj, num, hne, hnl, (isNum_iff num).mp hnum, heq⟩
  · rintro ⟨subj, num, hne, hnl, hnum, heq⟩
    exact ⟨subj, num, hne, hnl, (isNum_iff num).mpr hnum, heq⟩

/-- C7 counterexample: when the time collaborator fails on the end-to-end
example candidate, the dispatch ends in the fatal-log outcome — the process
exit of `log.Fatal` — with nothing emitted and the second candidate of the
cycle never dispatched; the failure is not surfaced as an ordinary cycle
failure and the process does not keep running. -/
theorem c7_counterexample_time_parse_exits_process :
    runCandidates ctxOPBadTime [] [candOP, candOP] =
      ([], [], Outcome.fatalTime) := by
  decide

/-- C7 (amended): for every candidate that reaches the timestamp step, a
release-time parse failure makes the dispatch end in the fatal-log outcome
(process exit): the candidate is not skipped, no event is emitted, the store
is unchanged, and the remaining candidates of the cycle are not processed. -/
theorem c7_amended_time_parse_is_fatal (ctx : Ctx) (st : Store) (e : Candidate)
    (rest : List Candidate) (s0 s1 : GoStr) (tail : List GoStr)
    (h1 : e.releaseTitle ≠ []) (h2 : e.releaseLink ≠ [])
    (h3 : e.releaseTime ≠ [])
    (h4 : isValidReleaseTitle e.releaseTitle = true)
    (h5 : isValidReleaseLink e.releaseLink = true)
    (h6 : splitChapter (ctx.unescape e.releaseTitle) = s0 :: s1 :: tail)
    (h7 : trimSpace s0 ∈ ctx.watchedMangas)
    (h8 : lookupAL st (trimSpace s0 ++ sepTitle ++ trimSpace s1) = none)
    (h9 : ctx.parseTime e.releaseTime = none) :
    runCandidates ctx st (e :: rest) = (st, [], Outcome.fatalTime) := by
  have hproc : processHTMLElement ctx st e = (st, [], Outcome.fatalTime) := by
    simp [processHTMLElement, h1, h2, h3, h4, h5, h6, h7, h8, h9,
      -List.append_assoc]
  simp [runCandidates, hproc]

/-- Witness for C7 (amended): the hypotheses hold at the end-to-end example
candidate under the failing time collaborator and the cycle ends in the
fatal outcome with the rest of the cycle unprocessed. -/
theorem c7_witness :
    (candOP.releaseTitle ≠ [] ∧ candOP.releaseLink ≠ [] ∧
     candOP.releaseTime ≠ [] ∧
     isValidReleaseTitle candOP.releaseTitle = true ∧
     isValidReleaseLink candOP.releaseLink = true ∧
     splitChapter (ctxOPBadTime.unescape candOP.releaseTitle) =
       [chars "One Piece ", chars " 1100"] ∧
     trimSpace (chars "One Piece ") ∈ ctxOPBadTime.watchedMangas ∧
     lookupAL [] (trimSpace (chars "One Piece ") ++ sepTitle ++
       trimSpace (chars " 1100")) = none ∧
     ctxOPBadTime.parseTime candOP.releaseTime = none) ∧
    runCandidates ctxOPBadTime [] [candOP, candOP] =
      ([], [], Outcome.fatalTime) :=
  ⟨⟨by decide, by decide, by decide, by decide, by decide, by decide,
    by decide, by decide, by decide⟩,
   c7_amended_time_parse_is_fatal ctxOPBadTime [] candOP [candOP]
     (chars "One Piece ") (chars " 1100") [] (by decide) (by decide)
     (by decide) (by decide) (by decide) (by decide) (by decide) (by decide)
     (by decide)⟩

/-- C8 counterexample: a save in which the persistence collaborator errors on
the single entry ends in the fatal-log outcome — `log.Fatal` exits the
process — rather than leaving the process running and retrying later. -/
theorem c8_counterexample_save_error_exits_process :
    saveCollectedChapters (fun _ _ => false) [(keyOP, infoOP)] [] = none := by
  decide

/-- C8 (amended): a bulk flush ends in the fatal-log outcome (process exit)
exactly when the persistence collaborator errors on some stored entry; there
is no per-entry recovery and no retry on a later cycle. -/
theorem c8_amended_save_error_is_fatal (execOk : GoStr → ChapterInfo → Bool)
    (st : Store) (tbl : Table) :
    saveCollectedChapters execOk st tbl = none ↔
      ∃ kv ∈ st, execOk kv.1 kv.2 = false := by
  induction st generalizing tbl with
  | nil => simp [saveCollectedChapters]
  | cons kv rest ih =>
    obtain ⟨k, v⟩ := kv
    by_cases hk : execOk k v = true
    · simp [saveCollectedChapters, hk, ih]
    · simp only [Bool.not_eq_true] at hk
      simp [saveCollectedChapters, hk]

/-- C9: storing any family of records with pairwise distinct identity keys
into an empty store, flushing every entry to an empty table, and loading the
rows back into a fresh empty store reproduces exactly the original entries,
with identical keys and field values. -/
theorem c9_round_trip_persistence (recs : List (GoStr × ChapterInfo))
    (h : (recs.map Prod.fst).Nodup) :
    recs.foldl (fun a kv => upsertAL a kv.1 kv.2) ([] : Store) = recs ∧
    saveCollectedChapters (fun _ _ => true)
        (recs.foldl (fun a kv => upsertAL a kv.1 kv.2) []) [] = some recs ∧
    loadCollectedChapters recs [] =
      recs.foldl (fun a kv => upsertAL a kv.1 kv.2) ([] : Store) ∧
    (loadCollectedChapters recs ([] : Store)).length = recs.length := by
  have hst : recs.foldl (fun a kv => upsertAL a kv.1 kv.2) ([] : Store) =
      recs := by
    have := foldl_upsert_all_absent ([] : Store) h
      (fun kv _ => by simp [lookupAL])
    simpa using this
  refine ⟨hst, ?_, ?_, ?_⟩
  · rw [saveCollectedChapters_allOk, hst, hst]
  · show recs.foldl (fun a kv => upsertAL a kv.1 kv.2) ([] : Store) = _
    rw [hst]
  · show (recs.foldl (fun a kv => upsertAL a kv.1 kv.2) ([] : Store)).length = _
    rw [hst]

/-- Witness for C9 at two concrete records with distinct keys. -/
theorem c9_witness :
    ((([(keyOP, infoOP),
        (chars "Bleach Chapter 7", infoOP)]).map Prod.fst).Nodup) ∧
    loadCollectedChapters [(keyOP, infoOP), (chars "Bleach Chapter 7", infoOP)]
        [] =
      ([(keyOP, infoOP),
        (chars "Bleach Chapter 7", infoOP)]).foldl
        (fun a kv => upsertAL a kv.1 kv.2) ([] : Store) :=
  ⟨by decide,
    (c9_round_trip_persistence
      [(keyOP, infoOP), (chars "Bleach Chapter 7", infoOP)]
      (by decide)).2.2.1⟩

/-- C10: every string the release-title validator accepts splits on the
literal `Chapter` into at least two segments, so the unguarded accesses to
the first and second segment are in bounds; and when unescaping leaves the
title unchanged the dispatch can never end in the index-out-of-range abort,
because validation runs before the split on every path. -/
theorem c10_split_after_validation_safe (s : GoStr)
    (h : isValidReleaseTitle s = true) (ctx : Ctx) (st : Store) (e : Candidate)
    (hid : ctx.unescape = id) :
    2 ≤ (splitChapter s).length ∧
    (processHTMLElement ctx st e).2.2 ≠ Outcome.splitOob := by
  refine ⟨valid_title_split_length h, ?_⟩
  by_cases h1 : e.releaseTitle = []
  · simp [processHTMLElement, h1]
  by_cases h2 : e.releaseLink = []
  · simp [processHTMLElement, h1, h2]
  by_cases h3 : e.releaseTime = []
  · simp [processHTMLElement, h1, h2, h3]
  by_cases h4 : isValidReleaseTitle e.releaseTitle = true
  case neg => simp [processHTMLElement, h1, h2, h3, h4]
  by_cases h5 : isValidReleaseLink e.releaseLink = true
  case neg => simp [processHTMLElement, h1, h2, h3, h4, h5]
  have hlen : 2 ≤ (splitChapter (ctx.unescape e.releaseTitle)).length := by
    rw [hid]
    exact valid_title_split_length h4
  rcases hsp : splitChapter (ctx.unescape e.releaseTitle) with _ | ⟨s0, tail0⟩
  · rw [hsp] at hlen
    simp at hlen
  rcases tail0 with _ | ⟨s1, tail⟩
  · rw [hsp] at hlen
    simp at hlen
  by_cases h6 : trimSpace s0 ∈ ctx.watchedMangas
  case neg => simp [processHTMLElement, h1, h2, h3, h4, h5, hsp, h6]
  by_cases h7 : (lookupAL st
      (trimSpace s0 ++ sepTitle ++ trimSpace s1)).isSome = true
  · simp [processHTMLElement, h1, h2, h3, h4, h5, hsp, h6, h7,
      -List.append_assoc]
  rcases hfmt : ctx.parseTime e.releaseTime with _ | fmt
  · simp [processHTMLElement, h1, h2, h3, h4, h5, hsp, h6, h7, hfmt,
      -List.append_assoc]
  · simp [processHTMLElement, h1, h2, h3, h4, h5, hsp, h6, h7, hfmt,
      -List.append_assoc]

/-- Witness for C10: the end-to-end example title is accepted, it splits into
two segments, and the dispatch of the example candidate does not abort. -/
theorem c10_witness :
    isValidReleaseTitle (chars "One Piece Chapter 1100") = true ∧
    ctxOP.unescape = id ∧
    (2 ≤ (splitChapter (chars "One Piece Chapter 1100")).length ∧
     (processHTMLElement ctxOP [] candOP).2.2 ≠ Outcome.splitOob) :=
  ⟨by decide, rfl,
    c10_split_after_validation_safe (chars "One Piece Chapter 1100")
      (by decide) ctxOP [] candOP rfl⟩

end TcbBot
